import Mathlib

/-!
Verification of the chunked transcription orchestration pipeline of the
audio-transcription app. The definitions below are shallow embeddings of
the TypeScript sources (`src/lib/gemini.ts`, `src/lib/audio-chunker.ts`,
and the streaming route handler `processAudioStream`). Machine floats of
the source are modelled as exact rationals; JavaScript `Math.round`,
`Math.floor`, `%` and `toFixed(0)` are embedded explicitly.
-/

set_option linter.unusedVariables false

/-- JavaScript `Math.round`: round half toward positive infinity. -/
def jsRound (q : ℚ) : Int := ⌊q + 1 / 2⌋

/-- JavaScript `Math.trunc`: round toward zero. -/
def jsTrunc (q : ℚ) : Int := if 0 ≤ q then ⌊q⌋ else ⌈q⌉

/-- JavaScript `a % b` (remainder with the dividend's sign). -/
def jsMod (a b : ℚ) : ℚ := a - b * jsTrunc (a / b)

/-- JavaScript `Number.prototype.toFixed(0)`: nearest integer, ties toward
the larger integer (ECMA-262 picks the larger candidate on a tie). -/
def jsToFixed0 (q : ℚ) : Int := ⌊q + 1 / 2⌋

/-- JavaScript `String.prototype.trim()`: strip leading and trailing
whitespace (kernel-computable model of `text.trim()`). -/
def jsTrim (s : String) : String :=
  String.mk (((s.data.dropWhile Char.isWhitespace).reverse.dropWhile
    Char.isWhitespace).reverse)

/-- JavaScript `String.prototype.padStart(2, "0")`. -/
def padStart2 (s : String) : String :=
  if 2 ≤ s.length then s else String.mk (List.replicate (2 - s.length) '0') ++ s

/-! ## `src/lib/gemini.ts` -/

/-- Bitrate table of `estimateAudioDuration` (kbps), with the
`|| 128` default for unknown MIME types. -/
def bitRateEstimates (mimeType : String) : Nat :=
  if mimeType = "audio/mpeg" then 128
  else if mimeType = "audio/mp4" then 128
  else if mimeType = "audio/wav" then 1411
  else if mimeType = "audio/flac" then 700
  else if mimeType = "audio/ogg" then 128
  else if mimeType = "audio/webm" then 128
  else 128

/-- The `durationSeconds` value computed inside `estimateAudioDuration`:
`Math.round((fileSize * 8) / (bitRate * 1000))`. -/
def estimateDurationSeconds (fileSize : Nat) (mimeType : String) : Int :=
  jsRound ((fileSize * 8 : ℚ) / (bitRateEstimates mimeType * 1000))

/-- `estimateAudioDuration`: formats the estimated seconds as the
user-facing Japanese duration string. -/
def estimateAudioDuration (fileSize : Nat) (mimeType : String) : String :=
  let durationSeconds : Nat := (estimateDurationSeconds fileSize mimeType).toNat
  let hours := durationSeconds / 3600
  let minutes := (durationSeconds % 3600) / 60
  let seconds := durationSeconds % 60
  if 0 < hours then
    "約" ++ toString hours ++ "時間" ++ toString minutes ++ "分" ++ toString seconds ++ "秒"
  else if 0 < minutes then
    "約" ++ toString minutes ++ "分" ++ toString seconds ++ "秒"
  else
    "約" ++ toString seconds ++ "秒"

/-- `getMimeType`: file extension to declared MIME type. -/
def getMimeType (extension : String) : String :=
  if extension = "mp3" then "audio/mpeg"
  else if extension = "m4a" then "audio/mp4"
  else if extension = "wav" then "audio/wav"
  else if extension = "flac" then "audio/flac"
  else if extension = "ogg" then "audio/ogg"
  else if extension = "webm" then "audio/webm"
  else "audio/mpeg"

/-- `getOptimalChunkSize`: chunk length in seconds selected from the
estimated duration in minutes (the `fileSizeBytes` argument is unused in
the source as well). -/
def getOptimalChunkSize (fileSizeBytes : Nat) (estimatedDurationMinutes : ℚ) : Nat :=
  if 30 < estimatedDurationMinutes then 60
  else if 15 < estimatedDurationMinutes then 120
  else if 5 < estimatedDurationMinutes then 180
  else 300

/-- The route handler's driving value
`estimatedMinutes = Math.round((audioFile.size * 8) / (128 * 1000 * 60))`:
a fixed 128 kbps assumption, independent of the declared format. -/
def estimatedMinutes (fileSize : Nat) : Int :=
  jsRound ((fileSize * 8 : ℚ) / (128 * 1000 * 60))

/-- The route handler's split decision `estimatedMinutes > 5`. -/
def shouldSplit (fileSize : Nat) : Bool :=
  decide ((5 : Int) < estimatedMinutes fileSize)

/-- The orchestrator's split gate applied to a duration in minutes. -/
def splitGate (estMinutes : Int) : Bool := decide ((5 : Int) < estMinutes)

/-- Maximum retry attempts in `processWithModel`. -/
def maxRetries : Nat := 3

/-- Error message thrown by `processWithModel` on an empty or
whitespace-only transcription result. -/
def emptyResultMsg : String := "音声の変換に失敗しました。音声が明瞭でない可能性があります。"

/-- Error message of the unreachable fall-through after the retry loop. -/
def maxRetryMsg : String := "最大リトライ回数に達しました"

/-- One provider attempt as seen by the retry loop: an empty or
whitespace-only result is turned into the thrown empty-result error,
a non-empty result is returned trimmed (`return text.trim()`). -/
def effectiveAttempt (attempt : Nat → Except String String) (k : Nat) : Except String String :=
  match attempt k with
  | Except.ok t => if jsTrim t = "" then Except.error emptyResultMsg else Except.ok (jsTrim t)
  | Except.error e => Except.error e

/-- Outcome of `processWithModel`: final result, number of provider
attempts made, and the list of backoff delays (ms) slept between attempts. -/
structure PWMOut where
  res : Except String String
  attempts : Nat
  delays : List Nat
  deriving Repr

/-- The retry loop of `processWithModel`. `fuel` is `maxRetries - retryCount`;
on a failure with `retryCount + 1 ≥ maxRetries` the last error is rethrown
without a backoff, otherwise the loop sleeps 20000 ms and retries. -/
def pwmGo (attempt : Nat → Except String String) (k : Nat) (acc : List Nat) :
    Nat → PWMOut
  | 0 => ⟨Except.error maxRetryMsg, k, acc⟩
  | fuel + 1 =>
    match effectiveAttempt attempt k with
    | Except.ok t => ⟨Except.ok t, k + 1, acc⟩
    | Except.error e =>
      if fuel = 0 then ⟨Except.error e, k + 1, acc⟩
      else pwmGo attempt (k + 1) (acc ++ [20000]) fuel

/-- `processWithModel`: bounded retries with a flat 20-second backoff. -/
def processWithModel (attempt : Nat → Except String String) : PWMOut :=
  pwmGo attempt 0 [] maxRetries

/-- Ordered model fallback list of `transcribeAudio`. -/
def modelNames : List String :=
  ["gemini-2.0-flash-exp", "gemini-2.0-flash-thinking-exp",
   "gemini-2.0-flash", "models/gemini-2.0-flash-exp"]

/-- The model-fallback loop of `transcribeAudio`: try each model in order
with `processWithModel`, remember the last error, count every provider
attempt actually made. -/
def taLoop (provider : String → Nat → Except String String) :
    List String → String → Nat → Except String String × Nat
  | [], lastErr, calls => (Except.error lastErr, calls)
  | mname :: rest, _, calls =>
    let out := processWithModel (provider mname)
    match out.res with
    | Except.ok t => (Except.ok t, calls + out.attempts)
    | Except.error e => taLoop provider rest e (calls + out.attempts)

/-- `transcribeAudio`: model fallback plus the outer error wrapper.
`audioLen` is the byte length of the buffer and `mimeType` the declared
format; neither is inspected anywhere (the source has no payload-size
guard). The second component counts provider attempts performed. -/
def transcribeAudio (audioLen : Nat) (mimeType : String)
    (provider : String → Nat → Except String String) : Except String String × Nat :=
  let r := taLoop provider modelNames "unknown" 0
  match r.1 with
  | Except.ok t => (Except.ok t, r.2)
  | Except.error e => (Except.error ("音声変換エラー: " ++ e), r.2)

/-! ## `src/lib/audio-chunker.ts` (`AudioChunker`) -/

/-- One element of the splitter's output: the realized slice of the input
(as a half-open index range into samples or bytes), its declared time
range in seconds, and its index (`chunks.length` at push time). -/
structure TChunk where
  bufferRange : Nat × Nat
  startTime : ℚ
  endTime : ℚ
  chunkIndex : Nat
  deriving Repr, DecidableEq

/-- Common slicing loop of `chunkDecodedAudio` and `chunkByBytes`:
`for (let i = 0; i < hi; i += step)` pushing the slice
`[i, min (i + step) hi)` with declared times `f i` and `f (min (i+step) hi)`.
The source loop does not terminate when `step = 0` and `0 < hi`, so the
embedding is fuel-indexed and returns `none` on fuel exhaustion. -/
def sliceLoop (f : Nat → ℚ) (hi step : Nat) :
    Nat → Nat → List TChunk → Option (List TChunk)
  | 0, _, _ => none
  | fuel + 1, i, acc =>
    if i < hi then
      sliceLoop f hi step fuel (i + step)
        (acc ++ [⟨(i, min (i + step) hi), f i, f (min (i + step) hi), acc.length⟩])
    else some acc

/-- `chunkDecodedAudio`: slice `totalSamples` decoded samples into chunks
of `samplesPerChunk = sampleRate * chunkDurationSeconds` samples; a chunk
covering samples `[i, e)` is declared to span `[i / sampleRate, e / sampleRate)`
seconds. (The WAV re-encoding of each slice carries no timing information
and is not modelled.) -/
def chunkDecodedAudio (sampleRate totalSamples chunkDurationSeconds fuel : Nat) :
    Option (List TChunk) :=
  sliceLoop (fun s => (s : ℚ) / (sampleRate : ℚ)) totalSamples
    (sampleRate * chunkDurationSeconds) fuel 0 []

/-- The chunk byte size of `chunkByBytes`:
`Math.floor(byteLength / (40 * 60 / chunkDurationSeconds))`. -/
def chunkSizeOf (byteLength chunkDurationSeconds : Nat) : Nat :=
  (⌊(byteLength : ℚ) / ((40 * 60 : ℚ) / (chunkDurationSeconds : ℚ))⌋).toNat

/-- `chunkByBytes` (fallback path): slice the raw bytes proportionally,
declaring each chunk's time span as a fraction of an assumed 40-minute
(2400 s) total duration. -/
def chunkByBytes (byteLength chunkDurationSeconds fuel : Nat) : Option (List TChunk) :=
  sliceLoop (fun b => (b : ℚ) / (byteLength : ℚ) * 40 * 60) byteLength
    (chunkSizeOf byteLength chunkDurationSeconds) fuel 0 []

/-- Boolean contiguity check: each chunk's declared end time equals the
next chunk's declared start time. -/
def contiguousB : List TChunk → Bool
  | [] => true
  | [_] => true
  | a :: b :: t => (a.endTime == b.startTime) && contiguousB (b :: t)

/-- Termination predicate for the byte-slicing fallback: some amount of
fuel suffices for the loop to finish. -/
def chunkByBytesTerminates (byteLength chunkDurationSeconds : Nat) : Prop :=
  ∃ fuel cs, chunkByBytes byteLength chunkDurationSeconds fuel = some cs

/-! ## `processAudioStream` (streaming route handler, split path) -/

/-- Status of a chunk result. -/
inductive Status where
  | success
  | error
  deriving Repr, DecidableEq

/-- A `ChunkResult` as pushed onto `allChunkResults`. -/
structure ChunkResult where
  chunkIndex : Nat
  startTime : ℚ
  endTime : ℚ
  text : String
  status : Status
  deriving Repr, DecidableEq

/-- The plan entry of one chunk as handed to the orchestrator loop
(realized payload bytes are irrelevant to the orchestration logic). -/
structure ChunkSpec where
  startTime : ℚ
  endTime : ℚ
  deriving Repr, DecidableEq

/-- Typed server-sent events emitted by `processAudioStream` on the split
path. -/
inductive SEvent where
  | info (message : String)
  | chunksCreated (totalChunks chunkDuration : Nat)
  | chunkStart (chunkIndex totalChunks : Nat) (startTime endTime : ℚ)
  | chunkComplete (r : ChunkResult)
  | chunkError (r : ChunkResult)
  | waiting (waitTime : Nat)
  | complete (text : String)
  deriving Repr, DecidableEq

/-- Placeholder text of an errored chunk. -/
def errPlaceholder : String := "[処理エラー]"

/-- The minute:second header `[m:ss - m:ss]` prefixed to each chunk's
text in the assembled transcript, from
`Math.floor(t / 60)` and `(t % 60).toFixed(0).padStart(2, "0")`. -/
def fmtClock (t : ℚ) : String :=
  toString ⌊t / 60⌋ ++ ":" ++ padStart2 (toString (jsToFixed0 (jsMod t 60)))

/-- Header of one chunk's transcript section. -/
def headerOfTimes (s e : ℚ) : String := "[" ++ fmtClock s ++ " - " ++ fmtClock e ++ "]"

/-- Header of a chunk. -/
def chunkHeader (c : ChunkSpec) : String := headerOfTimes c.startTime c.endTime

/-- Orchestrator state: `t` counts reads of the stream-liveness signal
(`controller.desiredSize`); `events` are the enqueued events in order;
`results` is `allChunkResults`; `transcripts` the `transcriptions` array;
`calls` the MIME labels of the provider calls made; `waitLogs` records,
for each inter-chunk wait performed, how many one-second sleeps it
completed and whether the stream was still live when the wait loop ended;
`stopped` is set when the loop `break`s on a dead stream; `docText` is the
assembled `transcriptionText`. -/
structure OState where
  t : Nat
  events : List SEvent
  results : List ChunkResult
  transcripts : List String
  calls : List String
  waitLogs : List (Nat × Bool)
  stopped : Bool
  docText : String
  deriving Repr

/-- `sendEvent`: enqueue only when the stream is still live; the liveness
read consumes one tick of the `alive` oracle either way. -/
def sendEvent (alive : Nat → Bool) (ev : SEvent) (st : OState) : OState :=
  if alive st.t then { st with t := st.t + 1, events := st.events ++ [ev] }
  else { st with t := st.t + 1 }

/-- Body of the interruptible wait, structurally recursive on the number
of one-second sleeps still allowed (`15 - w`, so the fuel runs out exactly
when `waitTime < 15000` fails). -/
def waitLoopGo (alive : Nat → Bool) : Nat → Nat → Nat → Nat × Nat × Bool
  | 0, t, w => (w, t, true)
  | fuel + 1, t, w =>
    if alive t then waitLoopGo alive fuel (t + 1) (w + 1) else (w, t + 1, false)

/-- The interruptible 15-second inter-chunk wait:
`while (waitTime < 15000 && checkStreamStatus()) { sleep 1s }`.
Returns (completed one-second sleeps, final tick, whether the loop ended
with the stream still live). -/
def waitLoop (alive : Nat → Bool) (t w : Nat) : Nat × Nat × Bool :=
  waitLoopGo alive (15 - w) t w

/-- Result handling of one chunk: on non-empty text push the timestamped
transcript section and a `success` result and emit `chunk-complete`; on a
thrown error push the placeholder section and an `error` result and emit
`chunk-error`; on an empty text silently record nothing. -/
def afterOutcome (alive : Nat → Bool) (c : ChunkSpec) (idx : Nat)
    (r : Except String String) (st : OState) : OState :=
  match r with
  | Except.ok txt =>
    if jsTrim txt ≠ "" then
      let cr : ChunkResult := ⟨idx, c.startTime, c.endTime, txt, Status.success⟩
      sendEvent alive (SEvent.chunkComplete cr)
        { st with transcripts := st.transcripts ++ [chunkHeader c ++ "\n" ++ txt],
                  results := st.results ++ [cr] }
    else st
  | Except.error _ =>
    let cr : ChunkResult := ⟨idx, c.startTime, c.endTime, errPlaceholder, Status.error⟩
    sendEvent alive (SEvent.chunkError cr)
      { st with transcripts := st.transcripts ++ [chunkHeader c ++ "\n" ++ errPlaceholder],
                results := st.results ++ [cr] }

/-- The per-chunk loop of the split path. `o i` is the outcome of
`transcribeAudio` for chunk `i`; every iteration first checks stream
liveness and `break`s if the consumer is gone, then emits `chunk-start`,
performs the provider call (always declaring MIME `audio/wav`), handles
the outcome, and — except after the last chunk — runs the interruptible
wait, `break`ing if the stream died before, during or after it. -/
def runChunksFrom (alive : Nat → Bool) (o : Nat → Except String String) (n : Nat) :
    List (Nat × ChunkSpec) → OState → OState
  | [], st => st
  | (i, c) :: rest, st =>
    if alive st.t = false then { st with t := st.t + 1, stopped := true }
    else
      let st1 := sendEvent alive (SEvent.chunkStart (i + 1) n c.startTime c.endTime)
        { st with t := st.t + 1 }
      let st2 := { st1 with calls := st1.calls ++ ["audio/wav"] }
      let st3 := afterOutcome alive c (i + 1) (o i) st2
      if i < n - 1 then
        if alive st3.t = false then { st3 with t := st3.t + 1, stopped := true }
        else
          let st4 := sendEvent alive (SEvent.waiting 15) { st3 with t := st3.t + 1 }
          let w := waitLoop alive st4.t 0
          let st5 := { st4 with t := w.2.1, waitLogs := st4.waitLogs ++ [(w.1, w.2.2)] }
          if alive st5.t = false then { st5 with t := st5.t + 1, stopped := true }
          else runChunksFrom alive o n rest { st5 with t := st5.t + 1 }
      else runChunksFrom alive o n rest st3

/-- The split branch of `processAudioStream`: the two `info` events and
`chunks-created`, the per-chunk loop over the enumerated chunks, the
assembly `transcriptions.join("\n\n")`, and the guarded `complete` event. -/
def runSplit (alive : Nat → Bool) (chunks : List ChunkSpec)
    (o : Nat → Except String String) (chunkDur : Nat) : OState :=
  let st0 : OState := ⟨0, [], [], [], [], [], false, ""⟩
  let st1 := sendEvent alive (SEvent.info "long audio detected") st0
  let st2 := sendEvent alive (SEvent.info "chunking audio") st1
  let st3 := sendEvent alive (SEvent.chunksCreated chunks.length chunkDur) st2
  let st4 := runChunksFrom alive o chunks.length chunks.enum st3
  let txt := String.intercalate "\n\n" st4.transcripts
  let st5 := { st4 with docText := txt }
  if alive st5.t = false then { st5 with t := st5.t + 1 }
  else sendEvent alive (SEvent.complete txt) { st5 with t := st5.t + 1 }

/-- The always-live consumer. -/
def aliveTrue : Nat → Bool := fun _ => true

/-- Transcript section reconstructed from a `ChunkResult`. -/
def sectionOfResult (r : ChunkResult) : String :=
  headerOfTimes r.startTime r.endTime ++ "\n" ++ r.text

/-- Expected `allChunkResults` contribution of the chunks from index `j`
on, when the consumer stays connected. -/
def resultsOf (o : Nat → Except String String) : Nat → List ChunkSpec → List ChunkResult
  | _, [] => []
  | j, c :: rest =>
    (match o j with
     | Except.ok t =>
       if jsTrim t ≠ "" then [⟨j + 1, c.startTime, c.endTime, t, Status.success⟩] else []
     | Except.error _ => [⟨j + 1, c.startTime, c.endTime, errPlaceholder, Status.error⟩])
    ++ resultsOf o (j + 1) rest

/-- Expected event trace contribution of the chunks from index `j` on,
when the consumer stays connected. -/
def eventsOf (o : Nat → Except String String) (n : Nat) : Nat → List ChunkSpec → List SEvent
  | _, [] => []
  | j, c :: rest =>
    SEvent.chunkStart (j + 1) n c.startTime c.endTime ::
    ((match o j with
      | Except.ok t =>
        if jsTrim t ≠ "" then
          [SEvent.chunkComplete ⟨j + 1, c.startTime, c.endTime, t, Status.success⟩]
        else []
      | Except.error _ =>
        [SEvent.chunkError ⟨j + 1, c.startTime, c.endTime, errPlaceholder, Status.error⟩])
     ++ (if j < n - 1 then [SEvent.waiting 15] else [])
     ++ eventsOf o n (j + 1) rest)

/-! ## Chunk planner and duration estimator (C6, C7) -/

/-- C7: the Chunk Planner selects 60 s chunks above 30 minutes, 120 s
between 15 and 30, 180 s between 5 and 15, and at 5 minutes or less the
orchestrator's gate chooses no split; the selected chunk length is
monotonically non-increasing in the estimated duration. -/
theorem c7_planner_tiers_and_monotonicity :
    (∀ (sz : Nat) (m : ℚ), 30 < m → getOptimalChunkSize sz m = 60) ∧
    (∀ (sz : Nat) (m : ℚ), 15 < m → m ≤ 30 → getOptimalChunkSize sz m = 120) ∧
    (∀ (sz : Nat) (m : ℚ), 5 < m → m ≤ 15 → getOptimalChunkSize sz m = 180) ∧
    (∀ m : Int, m ≤ 5 → splitGate m = false) ∧
    (∀ (sz : Nat) (m1 m2 : ℚ), m1 ≤ m2 →
      getOptimalChunkSize sz m2 ≤ getOptimalChunkSize sz m1) := by
  refine ⟨?_, ?_, ?_, ?_, ?_⟩
  · intro sz m h
    simp [getOptimalChunkSize, h]
  · intro sz m h h30
    have : ¬ (30 : ℚ) < m := by linarith
    simp [getOptimalChunkSize, this, h]
  · intro sz m h h15
    have h30 : ¬ (30 : ℚ) < m := by linarith
    have h15n : ¬ (15 : ℚ) < m := by linarith
    simp [getOptimalChunkSize, h30, h15n, h]
  · intro m h
    simp only [splitGate, decide_eq_false_iff_not, not_lt]
    exact h
  · intro sz m1 m2 h
    unfold getOptimalChunkSize
    split_ifs <;> try norm_num
    all_goals linarith

/-- C7 witness: concrete tier values and a concrete monotonicity instance. -/
theorem c7_planner_tiers_and_monotonicity_witness :
    getOptimalChunkSize 0 31 = 60 ∧ getOptimalChunkSize 0 16 = 120 ∧
    getOptimalChunkSize 0 6 = 180 ∧ splitGate 5 = false ∧
    getOptimalChunkSize 0 40 ≤ getOptimalChunkSize 0 20 :=
  ⟨c7_planner_tiers_and_monotonicity.1 0 31 (by norm_num),
   c7_planner_tiers_and_monotonicity.2.1 0 16 (by norm_num) (by norm_num),
   c7_planner_tiers_and_monotonicity.2.2.1 0 6 (by norm_num) (by norm_num),
   c7_planner_tiers_and_monotonicity.2.2.2.1 5 (by norm_num),
   c7_planner_tiers_and_monotonicity.2.2.2.2 0 20 40 (by norm_num)⟩

/-- C6 counterexample: a 9.6 MB WAV asset. The Duration Estimator's
per-format output is 54 seconds (1411 kbps table entry), far below the
5-minute split threshold, yet the orchestrator splits the file because its
driving value is computed at a fixed 128 kbps — so the duration driving
the split decision is not the Duration Estimator's output. -/
theorem c6_counterexample :
    shouldSplit 9600000 = true ∧
    estimateDurationSeconds 9600000 "audio/wav" = 54 ∧
    decide ((300 : Int) < estimateDurationSeconds 9600000 "audio/wav") = false := by
  have hb : bitRateEstimates "audio/wav" = 1411 := by decide
  refine ⟨?_, ?_, ?_⟩
  · norm_num [shouldSplit, estimatedMinutes, jsRound]
  · rw [estimateDurationSeconds, hb]
    norm_num [jsRound]
  · rw [estimateDurationSeconds, hb]
    norm_num [jsRound]

/-- C6 amended: the duration driving the Orchestrator's split/no-split
decision and the chunk-length selection is `estimatedMinutes`, computed
from the byte length at a fixed 128 kbps — the table entry of
`audio/mpeg` — independent of the asset's declared format; it matches the
per-format computation only for formats whose bitrate table entry is
128 kbps. -/
theorem c6_amended_fixed_bitrate_drives_decision :
    ∀ (size : Nat) (fmt : String),
      shouldSplit size = splitGate (estimatedMinutes size) ∧
      estimatedMinutes size =
        jsRound ((size * 8 : ℚ) / (bitRateEstimates "audio/mpeg" * 1000 * 60)) ∧
      (bitRateEstimates fmt = 128 →
        estimatedMinutes size =
          jsRound ((size * 8 : ℚ) / (bitRateEstimates fmt * 1000 * 60))) := by
  intro size fmt
  refine ⟨rfl, by norm_num [estimatedMinutes, bitRateEstimates], ?_⟩
  intro h
  rw [h]
  norm_num [estimatedMinutes]

/-- C6 amended witness: instance at the 9.6 MB asset with an actual
128 kbps format. -/
theorem c6_amended_fixed_bitrate_drives_decision_witness :
    shouldSplit 9600000 = splitGate (estimatedMinutes 9600000) ∧
    estimatedMinutes 9600000 =
      jsRound ((9600000 * 8 : ℚ) / (bitRateEstimates "audio/ogg" * 1000 * 60)) :=
  ⟨(c6_amended_fixed_bitrate_drives_decision 9600000 "audio/ogg").1,
   (c6_amended_fixed_bitrate_drives_decision 9600000 "audio/ogg").2.2 (by decide)⟩

/-! ## Transcription client retry policy (C4, C5) -/

/-- Exhaustive case analysis of the retry loop: first success at attempt
1, 2 or 3, or all three attempts fail and the last error is rethrown. -/
theorem processWithModel_cases (a : Nat → Except String String) :
    (∃ t, effectiveAttempt a 0 = Except.ok t ∧
      processWithModel a = ⟨Except.ok t, 1, []⟩) ∨
    (∃ e t, effectiveAttempt a 0 = Except.error e ∧ effectiveAttempt a 1 = Except.ok t ∧
      processWithModel a = ⟨Except.ok t, 2, [20000]⟩) ∨
    (∃ e f t, effectiveAttempt a 0 = Except.error e ∧ effectiveAttempt a 1 = Except.error f ∧
      effectiveAttempt a 2 = Except.ok t ∧
      processWithModel a = ⟨Except.ok t, 3, [20000, 20000]⟩) ∨
    (∃ e f g, effectiveAttempt a 0 = Except.error e ∧ effectiveAttempt a 1 = Except.error f ∧
      effectiveAttempt a 2 = Except.error g ∧
      processWithModel a = ⟨Except.error g, 3, [20000, 20000]⟩) := by
  rcases h0 : effectiveAttempt a 0 with e0 | t0
  on_goal 2 =>
    exact Or.inl ⟨t0, rfl, by simp [processWithModel, maxRetries, pwmGo, h0]⟩
  rcases h1 : effectiveAttempt a 1 with e1 | t1
  on_goal 2 =>
    exact Or.inr (Or.inl ⟨e0, t1, rfl, rfl,
      by simp [processWithModel, maxRetries, pwmGo, h0, h1]⟩)
  rcases h2 : effectiveAttempt a 2 with e2 | t2
  · exact Or.inr (Or.inr (Or.inr ⟨e0, e1, e2, rfl, rfl, rfl,
      by simp [processWithModel, maxRetries, pwmGo, h0, h1, h2]⟩))
  · exact Or.inr (Or.inr (Or.inl ⟨e0, e1, t2, rfl, rfl, rfl,
      by simp [processWithModel, maxRetries, pwmGo, h0, h1, h2]⟩))

/-- C4: per model at most `maxRetries = 3` attempts are made; an empty or
whitespace-only result counts as a failure; every failed non-final attempt
is followed by exactly one flat 20-second backoff (so `attempts - 1`
delays in total and none after the final attempt); every attempt before
the last one failed; the value returned, success or error, is the last
attempt's outcome (in particular the last error is propagated). -/
theorem c4_retry_policy (attempt : Nat → Except String String) :
    (processWithModel attempt).attempts ≤ maxRetries ∧
    1 ≤ (processWithModel attempt).attempts ∧
    (processWithModel attempt).delays =
      List.replicate ((processWithModel attempt).attempts - 1) 20000 ∧
    (∀ k, k + 1 < (processWithModel attempt).attempts →
      ∃ e, effectiveAttempt attempt k = Except.error e) ∧
    (∀ e, (processWithModel attempt).res = Except.error e →
      effectiveAttempt attempt ((processWithModel attempt).attempts - 1) = Except.error e) ∧
    (∀ s, (processWithModel attempt).res = Except.ok s →
      effectiveAttempt attempt ((processWithModel attempt).attempts - 1) = Except.ok s) ∧
    (∀ k s, attempt k = Except.ok s → jsTrim s = "" →
      effectiveAttempt attempt k = Except.error emptyResultMsg) := by
  have hempty : ∀ k s, attempt k = Except.ok s → jsTrim s = "" →
      effectiveAttempt attempt k = Except.error emptyResultMsg := by
    intro k s hk htrim
    simp [effectiveAttempt, hk, htrim]
  rcases processWithModel_cases attempt with ⟨t, h0, hp⟩ | ⟨e, t, h0, h1, hp⟩ |
    ⟨e, f, t, h0, h1, h2, hp⟩ | ⟨e, f, g, h0, h1, h2, hp⟩ <;> rw [hp] <;> dsimp only
  · refine ⟨by norm_num [maxRetries], by norm_num, rfl, ?_, ?_, ?_, hempty⟩
    · intro k hk
      omega
    · intro x hx
      simp at hx
    · intro x hx
      simp at hx
      simpa [hx] using h0
  · refine ⟨by norm_num [maxRetries], by norm_num, rfl, ?_, ?_, ?_, hempty⟩
    · intro k hk
      have hk0 : k = 0 := by omega
      subst hk0
      exact ⟨e, h0⟩
    · intro x hx
      simp at hx
    · intro x hx
      simp at hx
      simpa [hx] using h1
  · refine ⟨by norm_num [maxRetries], by norm_num, rfl, ?_, ?_, ?_, hempty⟩
    · intro k hk
      rcases (by omega : k = 0 ∨ k = 1) with rfl | rfl
      · exact ⟨e, h0⟩
      · exact ⟨f, h1⟩
    · intro x hx
      simp at hx
    · intro x hx
      simp at hx
      simpa [hx] using h2
  · refine ⟨by norm_num [maxRetries], by norm_num, rfl, ?_, ?_, ?_, hempty⟩
    · intro k hk
      rcases (by omega : k = 0 ∨ k = 1) with rfl | rfl
      · exact ⟨e, h0⟩
      · exact ⟨f, h1⟩
    · intro x hx
      simp at hx
      simpa [hx] using h2
    · intro x hx
      simp at hx

/-- C4 witness: with a provider failing every attempt, three attempts are
made, two 20-second backoffs are slept, and the final error is the
propagated one. -/
theorem c4_retry_policy_witness :
    (processWithModel fun _ => Except.error "x").attempts ≤ maxRetries ∧
    (processWithModel fun _ => Except.error "x").delays =
      List.replicate ((processWithModel fun _ => Except.error "x").attempts - 1) 20000 ∧
    effectiveAttempt (fun _ => Except.error "x")
      ((processWithModel fun _ => Except.error "x").attempts - 1) = Except.error "x" :=
  ⟨(c4_retry_policy fun _ => Except.error "x").1,
   (c4_retry_policy fun _ => Except.error "x").2.2.1,
   (c4_retry_policy fun _ => Except.error "x").2.2.2.2.1 "x" rfl⟩

/-- Every run of the retry loop performs at least one provider attempt. -/
theorem processWithModel_attempts_pos (a : Nat → Except String String) :
    1 ≤ (processWithModel a).attempts := by
  rcases processWithModel_cases a with ⟨t, h0, hp⟩ | ⟨e, t, h0, h1, hp⟩ |
    ⟨e, f, t, h0, h1, h2, hp⟩ | ⟨e, f, g, h0, h1, h2, hp⟩ <;> rw [hp] <;> norm_num

/-- The model-fallback loop never decreases the running call counter. -/
theorem taLoop_calls_le (provider : String → Nat → Except String String) :
    ∀ (ms : List String) (lastErr : String) (calls : Nat),
      calls ≤ (taLoop provider ms lastErr calls).2 := by
  intro ms
  induction ms with
  | nil => intro lastErr calls; simp [taLoop]
  | cons m rest ih =>
    intro lastErr calls
    rw [taLoop]
    rcases h : (processWithModel (provider m)).res with e | t
    · simp only [h]
      calc calls ≤ calls + (processWithModel (provider m)).attempts := by omega
        _ ≤ _ := ih e (calls + (processWithModel (provider m)).attempts)
    · simp only [h]
      omega

/-- C5 counterexample: a 10-byte payload — far below any 1 KB floor — is
not rejected: with a provider that succeeds immediately, `transcribeAudio`
returns that success and has made exactly one provider call. -/
theorem c5_counterexample :
    (transcribeAudio 10 "audio/wav" fun _ _ => Except.ok "hi").1 = Except.ok "hi" ∧
    (transcribeAudio 10 "audio/wav" fun _ _ => Except.ok "hi").2 = 1 := by
  constructor <;> rfl

/-- C5 amended: `transcribeAudio` has no minimum-payload guard at all —
its behavior is completely independent of the byte length (and of the
declared MIME label), and on every input, however small, at least one
provider attempt is performed. -/
theorem c5_amended_no_payload_guard :
    ∀ (len len' : Nat) (mime mime' : String)
      (provider : String → Nat → Except String String),
      transcribeAudio len mime provider = transcribeAudio len' mime' provider ∧
      1 ≤ (transcribeAudio len mime provider).2 := by
  intro len len' mime mime' provider
  refine ⟨rfl, ?_⟩
  have h1 : 1 ≤ (taLoop provider modelNames "unknown" 0).2 := by
    rw [modelNames, taLoop]
    rcases h : (processWithModel (provider "gemini-2.0-flash-exp")).res with e | t
    · simp only [h]
      calc 1 ≤ 0 + (processWithModel (provider "gemini-2.0-flash-exp")).attempts := by
            have := processWithModel_attempts_pos (provider "gemini-2.0-flash-exp")
            omega
        _ ≤ _ := taLoop_calls_le provider _ e _
    · simp only [h]
      have := processWithModel_attempts_pos (provider "gemini-2.0-flash-exp")
      omega
  rw [transcribeAudio]
  rcases h : (taLoop provider modelNames "unknown" 0).1 with e | t <;> simpa [h] using h1

/-! ## Audio splitter (C8, C9) -/

/-- With a zero step the slicing loop never advances past a position
strictly below the bound: it exhausts any amount of fuel. -/
theorem sliceLoop_zero_step_diverges (f : Nat → ℚ) (hi : Nat) :
    ∀ (fuel i : Nat) (acc : List TChunk), i < hi →
      sliceLoop f hi 0 fuel i acc = none := by
  intro fuel
  induction fuel with
  | zero => intro i acc h; rfl
  | succ n ih =>
    intro i acc h
    rw [sliceLoop, if_pos h]
    simpa using ih i _ h
/-- Appending a chunk keeps the sequence contiguous exactly when the
previous last chunk's end time equals the new chunk's start time. -/
theorem contiguousB_concat (acc : List TChunk) (c : TChunk) :
    contiguousB (acc ++ [c]) = true ↔
      (contiguousB acc = true ∧ ∀ l, acc.getLast? = some l → l.endTime = c.startTime) := by
  induction acc with
  | nil => simp [contiguousB]
  | cons a rest ih =>
    cases rest with
    | nil =>
      simp [contiguousB, beq_iff_eq]
    | cons b t =>
      simp only [List.cons_append, contiguousB, Bool.and_eq_true, beq_iff_eq,
        List.append_eq] at *
      rw [ih]
      constructor
      · rintro ⟨h1, h2, h3⟩
        exact ⟨⟨h1, h2⟩, by simpa using h3⟩
      · rintro ⟨⟨h1, h2⟩, h3⟩
        exact ⟨h1, h2, by simpa using h3⟩

/-- Invariant of the slicing loop: with a positive step and a monotone
time map, the loop terminates with enough fuel and yields a contiguous
chunk sequence starting at `f 0` and ending at `f hi`. -/
theorem sliceLoop_spec (f : Nat → ℚ) (hi step : Nat) (hstep : 1 ≤ step)
    (hmono : ∀ a b : Nat, a ≤ b → f a ≤ f b) :
    ∀ (fuel i : Nat) (acc : List TChunk),
      1 ≤ fuel → hi < i + fuel →
      contiguousB acc = true →
      (acc = [] → i = 0) →
      (∀ l, acc.getLast? = some l → l.endTime = f (min i hi)) →
      (∀ h, acc.head? = some h → h.startTime = f 0) →
      (∀ c ∈ acc, c.startTime ≤ c.endTime) →
      ∃ cs, sliceLoop f hi step fuel i acc = some cs ∧
        contiguousB cs = true ∧
        (cs = [] → hi = 0) ∧
        (∀ h, cs.head? = some h → h.startTime = f 0) ∧
        (∀ l, cs.getLast? = some l → l.endTime = f hi) ∧
        (∀ c ∈ cs, c.startTime ≤ c.endTime) := by
  intro fuel
  induction fuel with
  | zero => intro i acc h1; omega
  | succ n ih =>
    intro i acc h1 hfuel hcont hnil hlast hhead hse
    rw [sliceLoop]
    by_cases hih : i < hi
    · rw [if_pos hih]
      refine ih (i + step) _ (by omega) (by omega) ?_ ?_ ?_ ?_ ?_
      · rw [contiguousB_concat]
        refine ⟨hcont, ?_⟩
        intro l hl
        have := hlast l hl
        rwa [min_eq_left (by omega)] at this
      · intro hfalse
        simp at hfalse
      · intro l hl
        rw [List.getLast?_concat] at hl
        cases hl
        rfl
      · intro h hh
        cases acc with
        | nil =>
          have hi0 : i = 0 := hnil rfl
          subst hi0
          simp only [List.nil_append, List.head?_cons, Option.some.injEq] at hh
          subst hh
          rfl
        | cons x xs =>
          rw [List.cons_append, List.head?_cons] at hh
          exact hhead h hh
      · intro c hc2
        rcases List.mem_append.1 hc2 with hmem | hmem
        · exact hse c hmem
        · simp only [List.mem_singleton] at hmem
          subst hmem
          exact hmono i (min (i + step) hi) (by omega)
    · rw [if_neg hih]
      refine ⟨acc, rfl, hcont, ?_, hhead, ?_, hse⟩
      · intro hacc
        have := hnil hacc
        omega
      · intro l hl
        have := hlast l hl
        rwa [min_eq_right (by omega)] at this

/-- C8 amended: on the decoded path (any positive sample rate, target
duration and non-empty sample buffer) the chunk ranges are contiguous and
gap-free, start at 0 and end exactly at the decoded total duration
`totalSamples / sampleRate`; on the byte-slicing fallback, whenever the
computed chunk byte size is positive (which fails for tiny buffers, see
the counterexample), the ranges are contiguous and gap-free, start at 0
and end at the path's fixed assumed total duration of 2400 seconds. -/
theorem c8_amended_contiguous_ranges :
    (∀ sampleRate totalSamples dur : Nat,
      1 ≤ sampleRate → 1 ≤ dur → 1 ≤ totalSamples →
      ∃ cs, chunkDecodedAudio sampleRate totalSamples dur (totalSamples + 1) = some cs ∧
        contiguousB cs = true ∧ cs ≠ [] ∧
        (∀ h, cs.head? = some h → h.startTime = 0) ∧
        (∀ l, cs.getLast? = some l → l.endTime = (totalSamples : ℚ) / (sampleRate : ℚ)) ∧
        (∀ c ∈ cs, c.startTime ≤ c.endTime)) ∧
    (∀ len dur : Nat, 1 ≤ chunkSizeOf len dur →
      ∃ cs, chunkByBytes len dur (len + 1) = some cs ∧
        contiguousB cs = true ∧ cs ≠ [] ∧
        (∀ h, cs.head? = some h → h.startTime = 0) ∧
        (∀ l, cs.getLast? = some l → l.endTime = 2400) ∧
        (∀ c ∈ cs, c.startTime ≤ c.endTime)) := by
  constructor
  · intro sampleRate totalSamples dur hr hd ht
    have hstep : 1 ≤ sampleRate * dur := Nat.mul_pos hr hd
    have hmono : ∀ a b : Nat, a ≤ b →
        (a : ℚ) / (sampleRate : ℚ) ≤ (b : ℚ) / (sampleRate : ℚ) := by
      intro a b hab
      have h : (a : ℚ) ≤ b := by exact_mod_cast hab
      gcongr
    obtain ⟨cs, hrun, hcont, hnil2, hhead, hlast, hse⟩ :=
      sliceLoop_spec (fun s => (s : ℚ) / (sampleRate : ℚ)) totalSamples
        (sampleRate * dur) hstep hmono (totalSamples + 1) 0 [] (by omega) (by omega)
        rfl (fun _ => rfl) (by intro l hl; simp at hl) (by intro h hh; simp at hh)
        (by intro c hc; simp at hc)
    refine ⟨cs, hrun, hcont, ?_, ?_, ?_, hse⟩
    · intro hcs
      have := hnil2 hcs
      omega
    · intro h hh
      have := hhead h hh
      simpa using this
    · intro l hl
      exact hlast l hl
  · intro len dur hcs1
    have hlen : 1 ≤ len := by
      by_contra hlen
      have hl0 : len = 0 := by omega
      subst hl0
      rw [chunkSizeOf] at hcs1
      norm_num at hcs1
    have hmono : ∀ a b : Nat, a ≤ b →
        (a : ℚ) / (len : ℚ) * 40 * 60 ≤ (b : ℚ) / (len : ℚ) * 40 * 60 := by
      intro a b hab
      have h : (a : ℚ) ≤ b := by exact_mod_cast hab
      gcongr
    obtain ⟨cs, hrun, hcont, hnil2, hhead, hlast, hse⟩ :=
      sliceLoop_spec (fun b => (b : ℚ) / (len : ℚ) * 40 * 60) len
        (chunkSizeOf len dur) hcs1 hmono (len + 1) 0 [] (by omega) (by omega)
        rfl (fun _ => rfl) (by intro l hl; simp at hl) (by intro h hh; simp at hh)
        (by intro c hc; simp at hc)
    refine ⟨cs, hrun, hcont, ?_, ?_, ?_, hse⟩
    · intro hcs
      have := hnil2 hcs
      omega
    · intro h hh
      have := hhead h hh
      simpa using this
    · intro l hl
      have := hlast l hl
      rwa [div_self (by positivity), one_mul, show ((40 : ℚ) * 60 = 2400) by norm_num] at this

/-- C9 (code bug): the byte-slicing fallback returns the empty chunk
sequence for an empty buffer, but for a small non-empty buffer (here
100 bytes at a 20-second target) the computed chunk byte size is 0, so
the loop `i += chunkSize` never advances and the slicing never
terminates, whatever the fuel. -/
theorem c9_byte_fallback_divergence :
    (∀ dur fuel, chunkByBytes 0 dur (fuel + 1) = some []) ∧
    chunkSizeOf 100 20 = 0 ∧
    ¬ chunkByBytesTerminates 100 20 := by
  have h0 : chunkSizeOf 100 20 = 0 := by
    rw [chunkSizeOf]
    norm_num
  refine ⟨?_, h0, ?_⟩
  · intro dur fuel
    rw [chunkByBytes, sliceLoop]
    simp
  · rintro ⟨fuel, cs, h⟩
    rw [chunkByBytes, h0, sliceLoop_zero_step_diverges _ _ fuel 0 [] (by norm_num)] at h
    exact Option.noConfusion h

/-- C8 counterexample: for the non-empty 39-byte buffer and the positive
60-second target duration, the byte-slicing fallback never returns any
chunk sequence at all (its chunk byte size is 0 and the loop diverges),
so no contiguous chunk sequence is produced for this input. -/
theorem c8_counterexample_no_sequence_for_small_buffer :
    ¬ ∃ fuel cs, chunkByBytes 39 60 fuel = some cs ∧ contiguousB cs = true := by
  have h0 : chunkSizeOf 39 60 = 0 := by
    rw [chunkSizeOf]
    norm_num
  rintro ⟨fuel, cs, h, hcont⟩
  rw [chunkByBytes, h0, sliceLoop_zero_step_diverges _ _ fuel 0 [] (by norm_num)] at h
  exact Option.noConfusion h

/-- C8 amended witness: a 3-sample decoded buffer at 1 Hz with a
2-second target, and a 4-byte buffer with a 1200-second target on the
fallback path. -/
theorem c8_amended_contiguous_ranges_witness :
    (∃ cs, chunkDecodedAudio 1 3 2 (3 + 1) = some cs ∧
      contiguousB cs = true ∧ cs ≠ [] ∧
      (∀ h, cs.head? = some h → h.startTime = 0) ∧
      (∀ l, cs.getLast? = some l → l.endTime = ((3 : Nat) : ℚ) / ((1 : Nat) : ℚ)) ∧
      (∀ c ∈ cs, c.startTime ≤ c.endTime)) ∧
    (∃ cs, chunkByBytes 4 1200 (4 + 1) = some cs ∧
      contiguousB cs = true ∧ cs ≠ [] ∧
      (∀ h, cs.head? = some h → h.startTime = 0) ∧
      (∀ l, cs.getLast? = some l → l.endTime = 2400) ∧
      (∀ c ∈ cs, c.startTime ≤ c.endTime)) :=
  ⟨c8_amended_contiguous_ranges.1 1 3 2 (by norm_num) (by norm_num) (by norm_num),
   c8_amended_contiguous_ranges.2 4 1200 (by rw [chunkSizeOf]; norm_num)⟩

/-! ## Orchestrator invariants (C1, C2, C3, C10) -/

/-- `sendEvent` only touches the tick counter and the event list. -/
theorem sendEvent_fields (alive : Nat → Bool) (ev : SEvent) (st : OState) :
    (sendEvent alive ev st).results = st.results ∧
    (sendEvent alive ev st).transcripts = st.transcripts ∧
    (sendEvent alive ev st).calls = st.calls ∧
    (sendEvent alive ev st).waitLogs = st.waitLogs ∧
    (sendEvent alive ev st).stopped = st.stopped ∧
    (sendEvent alive ev st).docText = st.docText := by
  rw [sendEvent]
  split <;> exact ⟨rfl, rfl, rfl, rfl, rfl, rfl⟩

/-- Any event present after `sendEvent` was already present or is the
event just sent. -/
theorem sendEvent_events_sub (alive : Nat → Bool) (ev : SEvent) (st : OState) :
    ∀ x ∈ (sendEvent alive ev st).events, x ∈ st.events ∨ x = ev := by
  rw [sendEvent]
  split
  · intro x hx
    rcases List.mem_append.1 hx with h | h
    · exact Or.inl h
    · exact Or.inr (by simpa using h)
  · intro x hx
    exact Or.inl hx

/-- `afterOutcome` never touches `calls`, `waitLogs`, `stopped` or
`docText`. -/
theorem afterOutcome_fields (alive : Nat → Bool) (c : ChunkSpec) (idx : Nat)
    (r : Except String String) (st : OState) :
    (afterOutcome alive c idx r st).calls = st.calls ∧
    (afterOutcome alive c idx r st).waitLogs = st.waitLogs ∧
    (afterOutcome alive c idx r st).stopped = st.stopped ∧
    (afterOutcome alive c idx r st).docText = st.docText := by
  rcases r with e | txt
  · rw [afterOutcome]
    exact ⟨(sendEvent_fields _ _ _).2.2.1, (sendEvent_fields _ _ _).2.2.2.1,
      (sendEvent_fields _ _ _).2.2.2.2.1, (sendEvent_fields _ _ _).2.2.2.2.2⟩
  · rw [afterOutcome]
    split
    · exact ⟨(sendEvent_fields _ _ _).2.2.1, (sendEvent_fields _ _ _).2.2.2.1,
        (sendEvent_fields _ _ _).2.2.2.2.1, (sendEvent_fields _ _ _).2.2.2.2.2⟩
    · exact ⟨rfl, rfl, rfl, rfl⟩

/-- `afterOutcome` emits no `chunk-start` event. -/
theorem afterOutcome_chunkStart (alive : Nat → Bool) (c : ChunkSpec) (idx : Nat)
    (r : Except String String) (st : OState) (k tot : Nat) (p q : ℚ) :
    SEvent.chunkStart k tot p q ∈ (afterOutcome alive c idx r st).events →
    SEvent.chunkStart k tot p q ∈ st.events := by
  rcases r with e | txt
  · rw [afterOutcome]
    intro hx
    rcases sendEvent_events_sub _ _ _ _ hx with h | h
    · exact h
    · exact absurd h (by simp)
  · rw [afterOutcome]
    split
    · intro hx
      rcases sendEvent_events_sub _ _ _ _ hx with h | h
      · exact h
      · exact absurd h (by simp)
    · exact fun h => h

/-- Every MIME label in `calls` added by the chunk loop is `audio/wav`. -/
theorem runChunksFrom_calls_all (alive : Nat → Bool) (o : Nat → Except String String) (n : Nat) :
    ∀ (rest : List (Nat × ChunkSpec)) (st : OState),
      ((runChunksFrom alive o n rest st).calls.all fun m => m == "audio/wav") =
        (st.calls.all fun m => m == "audio/wav") := by
  intro rest
  induction rest with
  | nil => intro st; rw [runChunksFrom]
  | cons p rest ih =>
    intro st
    obtain ⟨i, c⟩ := p
    rw [runChunksFrom]
    by_cases h1 : alive st.t = false
    · rw [if_pos h1]
    · rw [if_neg h1]
      set st1 := sendEvent alive (SEvent.chunkStart (i + 1) n c.startTime c.endTime)
        { st with t := st.t + 1 } with hst1
      set st2 : OState := { st1 with calls := st1.calls ++ ["audio/wav"] } with hst2
      set st3 := afterOutcome alive c (i + 1) (o i) st2 with hst3
      have hc3 : (st3.calls.all fun m => m == "audio/wav") =
          (st.calls.all fun m => m == "audio/wav") := by
        rw [hst3, (afterOutcome_fields alive c (i + 1) (o i) st2).1, hst2]
        simp [List.all_append, (sendEvent_fields alive _ _).2.2.1, hst1]
      by_cases h2 : i < n - 1
      · rw [if_pos h2]
        by_cases h3 : alive st3.t = false
        · rw [if_pos h3]
          exact hc3
        · rw [if_neg h3]
          set st4 := sendEvent alive (SEvent.waiting 15) { st3 with t := st3.t + 1 } with hst4
          set w := waitLoop alive st4.t 0 with hw
          set st5 : OState := { st4 with t := w.2.1, waitLogs := st4.waitLogs ++ [(w.1, w.2.2)] }
            with hst5
          by_cases h4 : alive st5.t = false
          · rw [if_pos h4]
            show (st5.calls.all fun m => m == "audio/wav") = _
            rw [hst5]
            show (st4.calls.all fun m => m == "audio/wav") = _
            rw [hst4, (sendEvent_fields alive _ _).2.2.1]
            exact hc3
          · rw [if_neg h4]
            rw [ih]
            show (st5.calls.all fun m => m == "audio/wav") = _
            rw [hst5]
            show (st4.calls.all fun m => m == "audio/wav") = _
            rw [hst4, (sendEvent_fields alive _ _).2.2.1]
            exact hc3
      · rw [if_neg h2]
        rw [ih]
        exact hc3

/-- C10: on the split path, every provider transcription call declares
the fixed MIME type `audio/wav`, for every liveness oracle, chunk list,
provider behavior and chunk duration — in particular regardless of the
asset's original declared format and also for byte-slicing fallback
slices of a non-WAV container (`runSplit` does not even consult the
asset's MIME label for chunk calls). -/
theorem c10_split_calls_always_wav :
    ∀ (alive : Nat → Bool) (chunks : List ChunkSpec) (o : Nat → Except String String)
      (dur : Nat),
      ((runSplit alive chunks o dur).calls.all fun m => m == "audio/wav") = true := by
  intro alive chunks o dur
  rw [runSplit]
  set st0 : OState := ⟨0, [], [], [], [], [], false, ""⟩ with hst0
  set st1 := sendEvent alive (SEvent.info "long audio detected") st0 with hst1
  set st2 := sendEvent alive (SEvent.info "chunking audio") st1 with hst2
  set st3 := sendEvent alive (SEvent.chunksCreated chunks.length dur) st2 with hst3
  set st4 := runChunksFrom alive o chunks.length chunks.enum st3 with hst4
  have h3 : st3.calls = [] := by
    rw [hst3, (sendEvent_fields alive _ _).2.2.1, hst2,
      (sendEvent_fields alive _ _).2.2.1, hst1, (sendEvent_fields alive _ _).2.2.1]
  have h4 : (st4.calls.all fun m => m == "audio/wav") = true := by
    rw [hst4, runChunksFrom_calls_all, h3]
    rfl
  set st5 : OState := { st4 with docText := String.intercalate "\n\n" st4.transcripts }
    with hst5
  by_cases h : alive st5.t = false
  · rw [if_pos h]
    exact h4
  · rw [if_neg h]
    rw [(sendEvent_fields alive _ _).2.2.1]
    exact h4

/-- `afterOutcome` keeps the transcript sections aligned with the
`ChunkResult` list. -/
theorem afterOutcome_sect (alive : Nat → Bool) (c : ChunkSpec) (idx : Nat)
    (r : Except String String) (st : OState)
    (hst : st.transcripts = st.results.map sectionOfResult) :
    (afterOutcome alive c idx r st).transcripts =
      (afterOutcome alive c idx r st).results.map sectionOfResult := by
  rcases r with e | txt
  · rw [afterOutcome, (sendEvent_fields alive _ _).2.1, (sendEvent_fields alive _ _).1]
    show st.transcripts ++ [chunkHeader c ++ "\n" ++ errPlaceholder] = _
    simp [hst, sectionOfResult, chunkHeader]
  · rw [afterOutcome]
    split
    · rw [(sendEvent_fields alive _ _).2.1, (sendEvent_fields alive _ _).1]
      show st.transcripts ++ [chunkHeader c ++ "\n" ++ txt] = _
      simp [hst, sectionOfResult, chunkHeader]
    · exact hst

/-- The chunk loop keeps the transcript sections aligned with the
`ChunkResult` list. -/
theorem runChunksFrom_sect (alive : Nat → Bool) (o : Nat → Except String String) (n : Nat) :
    ∀ (rest : List (Nat × ChunkSpec)) (st : OState),
      st.transcripts = st.results.map sectionOfResult →
      (runChunksFrom alive o n rest st).transcripts =
        (runChunksFrom alive o n rest st).results.map sectionOfResult := by
  intro rest
  induction rest with
  | nil => intro st h; rw [runChunksFrom]; exact h
  | cons p rest ih =>
    intro st h
    obtain ⟨i, c⟩ := p
    rw [runChunksFrom]
    by_cases h1 : alive st.t = false
    · rw [if_pos h1]
      exact h
    · rw [if_neg h1]
      set st1 := sendEvent alive (SEvent.chunkStart (i + 1) n c.startTime c.endTime)
        { st with t := st.t + 1 } with hst1
      set st2 : OState := { st1 with calls := st1.calls ++ ["audio/wav"] } with hst2
      set st3 := afterOutcome alive c (i + 1) (o i) st2 with hst3
      have h2' : st2.transcripts = st2.results.map sectionOfResult := by
        rw [hst2]
        show st1.transcripts = st1.results.map sectionOfResult
        rw [hst1, (sendEvent_fields alive _ _).2.1, (sendEvent_fields alive _ _).1]
        exact h
      have h3' : st3.transcripts = st3.results.map sectionOfResult :=
        afterOutcome_sect alive c (i + 1) (o i) st2 h2'
      by_cases h2 : i < n - 1
      · rw [if_pos h2]
        by_cases h3 : alive st3.t = false
        · rw [if_pos h3]
          exact h3'
        · rw [if_neg h3]
          set st4 := sendEvent alive (SEvent.waiting 15) { st3 with t := st3.t + 1 } with hst4
          set w := waitLoop alive st4.t 0 with hw
          set st5 : OState := { st4 with t := w.2.1, waitLogs := st4.waitLogs ++ [(w.1, w.2.2)] }
            with hst5
          have h5' : st5.transcripts = st5.results.map sectionOfResult := by
            rw [hst5]
            show st4.transcripts = st4.results.map sectionOfResult
            rw [hst4, (sendEvent_fields alive _ _).2.1, (sendEvent_fields alive _ _).1]
            exact h3'
          by_cases h4 : alive st5.t = false
          · rw [if_pos h4]
            exact h5'
          · rw [if_neg h4]
            exact ih _ h5'
      · rw [if_neg h2]
        exact ih _ h3'

/-- The assembled document text is exactly the `ChunkResult` sections —
each a timestamp header, a newline and the result's text — joined by the
separator, for every liveness oracle and provider behavior. -/
theorem runSplit_assembles_sections (alive : Nat → Bool) (chunks : List ChunkSpec)
    (o : Nat → Except String String) (dur : Nat) :
    (runSplit alive chunks o dur).docText =
      String.intercalate "\n\n"
        ((runSplit alive chunks o dur).results.map sectionOfResult) := by
  rw [runSplit]
  set st0 : OState := ⟨0, [], [], [], [], [], false, ""⟩ with hst0
  set st1 := sendEvent alive (SEvent.info "long audio detected") st0 with hst1
  set st2 := sendEvent alive (SEvent.info "chunking audio") st1 with hst2
  set st3 := sendEvent alive (SEvent.chunksCreated chunks.length dur) st2 with hst3
  set st4 := runChunksFrom alive o chunks.length chunks.enum st3 with hst4
  have h3 : st3.transcripts = st3.results.map sectionOfResult := by
    rw [hst3, (sendEvent_fields alive _ _).2.1, (sendEvent_fields alive _ _).1, hst2,
      (sendEvent_fields alive _ _).2.1, (sendEvent_fields alive _ _).1, hst1,
      (sendEvent_fields alive _ _).2.1, (sendEvent_fields alive _ _).1]
    rfl
  have h4 : st4.transcripts = st4.results.map sectionOfResult := by
    rw [hst4]
    exact runChunksFrom_sect alive o chunks.length chunks.enum st3 h3
  set st5 : OState := { st4 with docText := String.intercalate "\n\n" st4.transcripts }
    with hst5
  by_cases h : alive st5.t = false
  · rw [if_pos h]
    show st5.docText = String.intercalate "\n\n" (st5.results.map sectionOfResult)
    rw [hst5]
    show String.intercalate "\n\n" st4.transcripts = _
    rw [h4]
  · rw [if_neg h]
    rw [(sendEvent_fields alive _ _).2.2.2.2.2, (sendEvent_fields alive _ _).1]
    show st5.docText = String.intercalate "\n\n" (st5.results.map sectionOfResult)
    rw [hst5]
    show String.intercalate "\n\n" st4.transcripts = _
    rw [h4]

/-- C3 amended: concatenating, in index order and separated by the
defined separator, the sections `headerOfTimes(start, end) + newline +
ChunkResult.text` reproduces the document's text exactly (the raw
`ChunkResult.text` alone does not: the document inserts a timestamp
header before each chunk's text, see the counterexample). -/
theorem c3_amended_roundtrip_with_headers :
    ∀ (alive : Nat → Bool) (chunks : List ChunkSpec) (o : Nat → Except String String)
      (dur : Nat),
      (runSplit alive chunks o dur).docText =
        String.intercalate "\n\n"
          ((runSplit alive chunks o dur).results.map sectionOfResult) :=
  runSplit_assembles_sections

/-- C3 counterexample: one successfully transcribed chunk spanning 0-180 s
with text `hello`. Joining the ChunkResult texts yields `hello`, but the
document's text is `[0:00 - 3:00]` + newline + `hello`, so the claimed
round-trip fails. -/
theorem c3_counterexample_headers :
    ¬ ((runSplit aliveTrue [⟨0, 180⟩] (fun _ => Except.ok "hello") 180).docText =
      String.intercalate "\n\n"
        ((runSplit aliveTrue [⟨0, 180⟩] (fun _ => Except.ok "hello") 180).results.map
          fun r => r.text)) := by
  intro h
  have h1 : (runSplit aliveTrue [⟨0, 180⟩] (fun _ => Except.ok "hello") 180).results
      = [⟨1, 0, 180, "hello", Status.success⟩] := by rfl
  have h2 := runSplit_assembles_sections aliveTrue [⟨0, 180⟩] (fun _ => Except.ok "hello") 180
  rw [h2, h1] at h
  simp only [List.map_cons, List.map_nil] at h
  have h3 : String.intercalate "\n\n" [sectionOfResult ⟨1, 0, 180, "hello", Status.success⟩]
      = sectionOfResult ⟨1, 0, 180, "hello", Status.success⟩ := rfl
  have h4 : String.intercalate "\n\n" ["hello"] = "hello" := rfl
  rw [h3, h4] at h
  have h5 := congrArg String.length h
  rw [sectionOfResult] at h5
  simp only [String.length_append] at h5
  have h6 : ("\n").length = 1 := rfl
  omega

/-- With an always-live consumer, `sendEvent` always enqueues. -/
theorem sendEvent_aliveTrue (ev : SEvent) (st : OState) :
    sendEvent aliveTrue ev st = { st with t := st.t + 1, events := st.events ++ [ev] } := by
  simp [sendEvent, aliveTrue]

/-- Result handling under an always-live consumer: exactly the expected
result and event are appended (none at all for an empty success text). -/
theorem afterOutcome_aliveTrue (c : ChunkSpec) (idx : Nat) (r : Except String String)
    (st : OState) :
    (afterOutcome aliveTrue c idx r st).results = st.results ++
      (match r with
       | Except.ok t =>
         if jsTrim t ≠ "" then [⟨idx, c.startTime, c.endTime, t, Status.success⟩] else []
       | Except.error _ => [⟨idx, c.startTime, c.endTime, errPlaceholder, Status.error⟩]) ∧
    (afterOutcome aliveTrue c idx r st).events = st.events ++
      (match r with
       | Except.ok t =>
         if jsTrim t ≠ "" then
           [SEvent.chunkComplete ⟨idx, c.startTime, c.endTime, t, Status.success⟩]
         else []
       | Except.error _ =>
         [SEvent.chunkError ⟨idx, c.startTime, c.endTime, errPlaceholder, Status.error⟩]) ∧
    (afterOutcome aliveTrue c idx r st).stopped = st.stopped := by
  rcases r with e | txt
  · rw [afterOutcome, sendEvent_aliveTrue]
    exact ⟨rfl, rfl, rfl⟩
  · rw [afterOutcome]
    by_cases ht : jsTrim txt ≠ ""
    · rw [if_pos ht, sendEvent_aliveTrue]
      refine ⟨?_, ?_, rfl⟩ <;> simp [ht]
    · rw [if_neg ht]
      refine ⟨?_, ?_, rfl⟩ <;> simp [ht]

/-- Characterization of a full run of the chunk loop with an always-live
consumer: the produced results and events are exactly `resultsOf` and
`eventsOf`, and the loop never stops early. -/
theorem runChunksFrom_aliveTrue (o : Nat → Except String String) (n : Nat) :
    ∀ (l : List ChunkSpec) (j : Nat) (st : OState),
      (runChunksFrom aliveTrue o n (List.enumFrom j l) st).results =
        st.results ++ resultsOf o j l ∧
      (runChunksFrom aliveTrue o n (List.enumFrom j l) st).events =
        st.events ++ eventsOf o n j l ∧
      (runChunksFrom aliveTrue o n (List.enumFrom j l) st).stopped = st.stopped := by
  intro l
  induction l with
  | nil =>
    intro j st
    rw [show List.enumFrom j ([] : List ChunkSpec) = [] from rfl, runChunksFrom,
      resultsOf, eventsOf]
    exact ⟨by simp, by simp, rfl⟩
  | cons c l ih =>
    intro j st
    rw [show List.enumFrom j (c :: l) = (j, c) :: List.enumFrom (j + 1) l from rfl,
      runChunksFrom]
    rw [if_neg (by simp [aliveTrue])]
    set st1 := sendEvent aliveTrue (SEvent.chunkStart (j + 1) n c.startTime c.endTime)
      { st with t := st.t + 1 } with hst1
    set st2 : OState := { st1 with calls := st1.calls ++ ["audio/wav"] } with hst2
    set st3 := afterOutcome aliveTrue c (j + 1) (o j) st2 with hst3
    obtain ⟨har, hae, has⟩ := afterOutcome_aliveTrue c (j + 1) (o j) st2
    rw [← hst3] at har hae has
    have h1e : st1.events = st.events ++ [SEvent.chunkStart (j + 1) n c.startTime c.endTime] := by
      rw [hst1, sendEvent_aliveTrue]
    have h2r : st2.results = st.results := by
      rw [hst2]
      show st1.results = st.results
      rw [hst1, sendEvent_aliveTrue]
    have h2e : st2.events = st.events ++ [SEvent.chunkStart (j + 1) n c.startTime c.endTime] := by
      rw [hst2]
      exact h1e
    have h2s : st2.stopped = st.stopped := by
      rw [hst2]
      show st1.stopped = st.stopped
      rw [hst1, sendEvent_aliveTrue]
    by_cases hj : j < n - 1
    · rw [if_pos hj]
      rw [if_neg (by simp [aliveTrue])]
      set st4 := sendEvent aliveTrue (SEvent.waiting 15) { st3 with t := st3.t + 1 } with hst4
      set w := waitLoop aliveTrue st4.t 0 with hw
      set st5 : OState := { st4 with t := w.2.1, waitLogs := st4.waitLogs ++ [(w.1, w.2.2)] }
        with hst5
      rw [if_neg (by simp [aliveTrue])]
      set st6 : OState := { st5 with t := st5.t + 1 } with hst6
      obtain ⟨ihr, ihe, ihs⟩ := ih (j + 1) st6
      have h6r : st6.results = st.results ++
          (match o j with
           | Except.ok t =>
             if jsTrim t ≠ "" then [⟨j + 1, c.startTime, c.endTime, t, Status.success⟩] else []
           | Except.error _ => [⟨j + 1, c.startTime, c.endTime, errPlaceholder, Status.error⟩]) := by
        rw [hst6]
        show st5.results = _
        rw [hst5]
        show st4.results = _
        rw [hst4, sendEvent_aliveTrue]
        show st3.results = _
        rw [har, h2r]
      have h6e : st6.events = (st.events ++ [SEvent.chunkStart (j + 1) n c.startTime c.endTime]) ++
          (match o j with
           | Except.ok t =>
             if jsTrim t ≠ "" then
               [SEvent.chunkComplete ⟨j + 1, c.startTime, c.endTime, t, Status.success⟩]
             else []
           | Except.error _ =>
             [SEvent.chunkError ⟨j + 1, c.startTime, c.endTime, errPlaceholder, Status.error⟩])
          ++ [SEvent.waiting 15] := by
        rw [hst6]
        show st5.events = _
        rw [hst5]
        show st4.events = _
        rw [hst4, sendEvent_aliveTrue]
        show st3.events ++ [SEvent.waiting 15] = _
        rw [hae, h2e]
      have h6s : st6.stopped = st.stopped := by
        rw [hst6]
        show st5.stopped = _
        rw [hst5]
        show st4.stopped = _
        rw [hst4, sendEvent_aliveTrue]
        show st3.stopped = _
        rw [has, h2s]
      refine ⟨?_, ?_, ?_⟩
      · rw [ihr, h6r, resultsOf]
        simp
      · rw [ihe, h6e, eventsOf, if_pos hj]
        rcases o j with e | txt
        · simp
        · by_cases ht : jsTrim txt ≠ "" <;> simp [ht]
      · rw [ihs, h6s]
    · rw [if_neg hj]
      obtain ⟨ihr, ihe, ihs⟩ := ih (j + 1) st3
      refine ⟨?_, ?_, ?_⟩
      · rw [ihr, har, h2r, resultsOf]
        simp
      · rw [ihe, hae, h2e, eventsOf, if_neg hj]
        rcases o j with e | txt
        · simp
        · by_cases ht : jsTrim txt ≠ "" <;> simp [ht]
      · rw [ihs, has, h2s]

/-- Characterization of the whole split path with an always-live
consumer: two info events and `chunks-created`, the per-chunk trace, a
final `complete` event, the expected result list, and no early stop. -/
theorem runSplit_aliveTrue (chunks : List ChunkSpec) (o : Nat → Except String String)
    (dur : Nat) :
    (runSplit aliveTrue chunks o dur).results = resultsOf o 0 chunks ∧
    (∃ txt, (runSplit aliveTrue chunks o dur).events =
      ([SEvent.info "long audio detected", SEvent.info "chunking audio",
        SEvent.chunksCreated chunks.length dur] ++ eventsOf o chunks.length 0 chunks)
      ++ [SEvent.complete txt]) ∧
    (runSplit aliveTrue chunks o dur).stopped = false := by
  rw [runSplit]
  set st0 : OState := ⟨0, [], [], [], [], [], false, ""⟩ with hst0
  set st1 := sendEvent aliveTrue (SEvent.info "long audio detected") st0 with hst1
  set st2 := sendEvent aliveTrue (SEvent.info "chunking audio") st1 with hst2
  set st3 := sendEvent aliveTrue (SEvent.chunksCreated chunks.length dur) st2 with hst3
  have h3 : st3.results = [] ∧ st3.events =
      [SEvent.info "long audio detected", SEvent.info "chunking audio",
       SEvent.chunksCreated chunks.length dur] ∧ st3.stopped = false := by
    rw [hst3, sendEvent_aliveTrue, hst2, sendEvent_aliveTrue, hst1, sendEvent_aliveTrue]
    exact ⟨rfl, rfl, rfl⟩
  set st4 := runChunksFrom aliveTrue o chunks.length chunks.enum st3 with hst4
  obtain ⟨h4r, h4e, h4s⟩ : st4.results = st3.results ++ resultsOf o 0 chunks ∧
      st4.events = st3.events ++ eventsOf o chunks.length 0 chunks ∧
      st4.stopped = st3.stopped := by
    rw [hst4]
    exact runChunksFrom_aliveTrue o chunks.length chunks 0 st3
  set st5 : OState := { st4 with docText := String.intercalate "\n\n" st4.transcripts }
    with hst5
  rw [if_neg (by simp [aliveTrue])]
  rw [sendEvent_aliveTrue]
  refine ⟨?_, ⟨String.intercalate "\n\n" st4.transcripts, ?_⟩, ?_⟩
  · show st5.results = _
    rw [hst5]
    show st4.results = _
    rw [h4r, h3.1]
    rfl
  · show st5.events ++ [SEvent.complete st5.docText] = _
    rw [hst5]
    show st4.events ++ [SEvent.complete (String.intercalate "\n\n" st4.transcripts)] = _
    rw [h4e, h3.2.1]
  · show st5.stopped = false
    rw [hst5]
    show st4.stopped = false
    rw [h4s, h3.2.2]

/-- Chunks from index `j` on contribute no result with an index at or
below `i + 1 ≤ j`. -/
theorem resultsOf_filter_high (o : Nat → Except String String) (i : Nat) :
    ∀ (l : List ChunkSpec) (j : Nat), i < j →
      (resultsOf o j l).filter (fun r => r.chunkIndex == i + 1) = [] := by
  intro l
  induction l with
  | nil => intro j h; rfl
  | cons c l ih =>
    intro j h
    rw [resultsOf, List.filter_append, ih (j + 1) (by omega)]
    have hne : ((j + 1 : Nat) == i + 1) = false := by
      simp only [beq_eq_false_iff_ne, ne_eq]
      omega
    rcases o j with e | t
    · simp [List.filter_cons, hne]
    · by_cases ht : jsTrim t ≠ "" <;> simp [ht, List.filter_cons, hne]

/-- When chunk `i` fails, the results contributed by the chunks from
index `j ≤ i` on contain exactly one entry with index `i + 1`: the error
placeholder result carrying chunk `i`'s time range. -/
theorem resultsOf_filter_at (o : Nat → Except String String) (e : String) :
    ∀ (l : List ChunkSpec) (j i : Nat) (c : ChunkSpec), j ≤ i →
      l.get? (i - j) = some c → o i = Except.error e →
      (resultsOf o j l).filter (fun r => r.chunkIndex == i + 1) =
        [⟨i + 1, c.startTime, c.endTime, errPlaceholder, Status.error⟩] := by
  intro l
  induction l with
  | nil => intro j i c hji hg _; simp at hg
  | cons c0 l ih =>
    intro j i c hji hg ho
    rw [resultsOf, List.filter_append]
    by_cases hji2 : j = i
    · subst hji2
      have hc : c0 = c := by simpa using hg
      subst hc
      rw [resultsOf_filter_high o j l (j + 1) (by omega)]
      simp only [ho]
      simp [List.filter_cons]
    · have hg' : l.get? (i - (j + 1)) = some c := by
        rw [show i - j = (i - (j + 1)) + 1 by omega] at hg
        simpa using hg
      rw [ih (j + 1) i c (by omega) hg' ho]
      have hne : ((j + 1 : Nat) == i + 1) = false := by
        simp only [beq_eq_false_iff_ne, ne_eq]
        omega
      rcases o j with e2 | t
      · simp [List.filter_cons, hne]
      · by_cases ht : jsTrim t ≠ "" <;> simp [ht, List.filter_cons, hne]

/-- Every chunk in range gets its `chunk-start` event in the expected
trace. -/
theorem eventsOf_chunkStart_mem (o : Nat → Except String String) (n : Nat) :
    ∀ (l : List ChunkSpec) (j k : Nat) (c : ChunkSpec), j ≤ k →
      l.get? (k - j) = some c →
      SEvent.chunkStart (k + 1) n c.startTime c.endTime ∈ eventsOf o n j l := by
  intro l
  induction l with
  | nil => intro j k c _ hg; simp at hg
  | cons c0 l ih =>
    intro j k c hjk hg
    rw [eventsOf]
    by_cases hjk2 : j = k
    · subst hjk2
      have hc : c0 = c := by simpa using hg
      subst hc
      exact List.mem_cons_self _ _
    · have hg' : l.get? (k - (j + 1)) = some c := by
        rw [show k - j = (k - (j + 1)) + 1 by omega] at hg
        simpa using hg
      have := ih (j + 1) k c (by omega) hg'
      simp only [List.mem_cons, List.mem_append]
      tauto

/-- C2: with a connected consumer, a chunk whose transcription call fails
(retries exhausted) yields exactly one ChunkResult for its index — status
error with the placeholder text and the chunk's time range — while every
chunk, including all subsequent ones, still gets its chunk-start event;
the session never stops early and still emits its final complete event,
so a single chunk's failure never aborts the session. -/
theorem c2_chunk_error_isolated (chunks : List ChunkSpec)
    (o : Nat → Except String String) (dur i : Nat) (e : String) (c : ChunkSpec)
    (hg : chunks.get? i = some c) (ho : o i = Except.error e) :
    ((runSplit aliveTrue chunks o dur).results.filter
      fun r => r.chunkIndex == i + 1) =
      [⟨i + 1, c.startTime, c.endTime, errPlaceholder, Status.error⟩] ∧
    (∀ k ck, chunks.get? k = some ck →
      SEvent.chunkStart (k + 1) chunks.length ck.startTime ck.endTime ∈
        (runSplit aliveTrue chunks o dur).events) ∧
    (runSplit aliveTrue chunks o dur).stopped = false ∧
    (∃ txt, SEvent.complete txt ∈ (runSplit aliveTrue chunks o dur).events) := by
  obtain ⟨hr, ⟨txt, he⟩, hs⟩ := runSplit_aliveTrue chunks o dur
  refine ⟨?_, ?_, hs, ⟨txt, ?_⟩⟩
  · rw [hr]
    exact resultsOf_filter_at o e chunks 0 i c (by omega) (by simpa using hg) ho
  · intro k ck hgk
    rw [he]
    simp only [List.mem_append]
    left
    right
    exact eventsOf_chunkStart_mem o chunks.length chunks 0 k ck (by omega)
      (by simpa using hgk)
  · rw [he]
    simp

/-- C2 witness: two chunks where chunk 1 fails and chunk 2 succeeds. -/
theorem c2_chunk_error_isolated_witness :
    ((runSplit aliveTrue [⟨0, 1⟩, ⟨1, 2⟩]
        (fun k => if k = 0 then Except.error "boom" else Except.ok "ok") 60).results.filter
      fun r => r.chunkIndex == 0 + 1) =
      [⟨0 + 1, (0 : ℚ), (1 : ℚ), errPlaceholder, Status.error⟩] ∧
    (∀ k ck, ([⟨0, 1⟩, ⟨1, 2⟩] : List ChunkSpec).get? k = some ck →
      SEvent.chunkStart (k + 1) ([⟨0, 1⟩, ⟨1, 2⟩] : List ChunkSpec).length
          ck.startTime ck.endTime ∈
        (runSplit aliveTrue [⟨0, 1⟩, ⟨1, 2⟩]
          (fun k => if k = 0 then Except.error "boom" else Except.ok "ok") 60).events) ∧
    (runSplit aliveTrue [⟨0, 1⟩, ⟨1, 2⟩]
      (fun k => if k = 0 then Except.error "boom" else Except.ok "ok") 60).stopped = false ∧
    (∃ txt, SEvent.complete txt ∈
      (runSplit aliveTrue [⟨0, 1⟩, ⟨1, 2⟩]
        (fun k => if k = 0 then Except.error "boom" else Except.ok "ok") 60).events) :=
  c2_chunk_error_isolated [⟨0, 1⟩, ⟨1, 2⟩]
    (fun k => if k = 0 then Except.error "boom" else Except.ok "ok") 60 0 "boom" ⟨0, 1⟩
    rfl rfl

/-- If the wait loop ends with a dead stream, it observed the closure at
some liveness read before its final tick, after strictly fewer than 15 of
its one-second sleeps. -/
theorem waitLoopGo_false (alive : Nat → Bool) :
    ∀ (fuel t w s t2 : Nat), waitLoopGo alive fuel t w = (s, t2, false) →
      s < w + fuel ∧ ∃ td, td < t2 ∧ alive td = false := by
  intro fuel
  induction fuel with
  | zero =>
    intro t w s t2 h
    exact absurd h (by simp [waitLoopGo])
  | succ fuel ih =>
    intro t w s t2 h
    rw [waitLoopGo] at h
    by_cases ha : alive t = true
    · rw [if_pos ha] at h
      obtain ⟨h1, h2⟩ := ih (t + 1) (w + 1) s t2 h
      exact ⟨by omega, h2⟩
    · rw [if_neg ha] at h
      simp only [Prod.mk.injEq] at h
      obtain ⟨h1, h2, _⟩ := h
      subst h1
      subst h2
      exact ⟨by omega, t, by omega, by simpa using ha⟩

/-- Specialization to the orchestrator's wait (started at `w = 0`). -/
theorem waitLoop_false (alive : Nat → Bool) :
    ∀ (t w s t2 : Nat), waitLoop alive t w = (s, t2, false) →
      s < 15 ∧ ∃ td, td < t2 ∧ alive td = false := by
  intro t w s t2 h
  rw [waitLoop] at h
  by_cases hw : w < 15
  · obtain ⟨h1, h2⟩ := waitLoopGo_false alive (15 - w) t w s t2 h
    exact ⟨by omega, h2⟩
  · rw [show 15 - w = 0 by omega] at h
    exact absurd h (by simp [waitLoopGo])

/-- A log list whose entries all survived contains no dead entry. -/
theorem logs_all_true_no_false (xs : List (Nat × Bool))
    (hall : ∀ p ∈ xs, p.2 = true) (i s : Nat) :
    xs.get? i = some (s, false) → False := by
  intro h
  have := hall (s, false) (List.get?_mem h)
  simp at this

/-- A dead entry appended to an all-survived log list is found only at
the final position. -/
theorem logs_concat_false (xs : List (Nat × Bool)) (a : Nat)
    (hall : ∀ p ∈ xs, p.2 = true) (i s : Nat) :
    (xs ++ [(a, false)]).get? i = some (s, false) → i = xs.length ∧ s = a := by
  intro h
  by_cases hi : i < xs.length
  · rw [List.get?_append hi] at h
    exact absurd h (fun hh => logs_all_true_no_false xs hall i s hh)
  · rw [List.get?_append_right (by omega)] at h
    rcases hk : i - xs.length with _ | k
    · rw [hk] at h
      have ha : a = s := by simpa using h
      exact ⟨by omega, ha.symm⟩
    · rw [hk] at h
      simp [List.get?] at h

/-- Cancellation invariant of the chunk loop: if the stream closure is
permanent and the final wait log records a wait that observed a dead
stream, then that wait was cut short (fewer than 15 sleeps), the loop
made exactly one provider call per chunk up to and including the chunk
before that wait, emitted no `chunk-start` beyond that chunk, and
stopped. -/
theorem runChunksFrom_cancel (alive : Nat → Bool) (o : Nat → Except String String) (n : Nat)
    (hdead : ∀ m k : Nat, m ≤ k → alive m = false → alive k = false) :
    ∀ (l : List ChunkSpec) (j : Nat) (st : OState),
      st.calls.length = j →
      st.waitLogs.length = j →
      (∀ p ∈ st.waitLogs, p.2 = true) →
      (∀ (k tot : Nat) (a b : ℚ), SEvent.chunkStart k tot a b ∈ st.events → k ≤ j) →
      j + l.length = n →
      ∀ i s, (runChunksFrom alive o n (List.enumFrom j l) st).waitLogs.get? i =
          some (s, false) →
        s < 15 ∧
        (runChunksFrom alive o n (List.enumFrom j l) st).calls.length = i + 1 ∧
        (∀ (k tot : Nat) (a b : ℚ),
          SEvent.chunkStart k tot a b ∈
            (runChunksFrom alive o n (List.enumFrom j l) st).events → k ≤ i + 1) ∧
        (runChunksFrom alive o n (List.enumFrom j l) st).stopped = true := by
  intro l
  induction l with
  | nil =>
    intro j st hc hl hall hev halign i s hget
    rw [show List.enumFrom j ([] : List ChunkSpec) = [] from rfl, runChunksFrom] at hget
    exact absurd hget (fun hh => logs_all_true_no_false st.waitLogs hall i s hh)
  | cons c l ih =>
    intro j st hc hl hall hev halign i s hget
    rw [show List.enumFrom j (c :: l) = (j, c) :: List.enumFrom (j + 1) l from rfl,
      runChunksFrom] at hget ⊢
    by_cases h1 : alive st.t = false
    · rw [if_pos h1] at hget ⊢
      exact absurd hget (fun hh => logs_all_true_no_false st.waitLogs hall i s hh)
    · rw [if_neg h1] at hget ⊢
      set st1 := sendEvent alive (SEvent.chunkStart (j + 1) n c.startTime c.endTime)
        { st with t := st.t + 1 } with hst1
      set st2 : OState := { st1 with calls := st1.calls ++ ["audio/wav"] } with hst2
      set st3 := afterOutcome alive c (j + 1) (o j) st2 with hst3
      have h3c : st3.calls.length = j + 1 := by
        rw [hst3, (afterOutcome_fields alive c (j + 1) (o j) st2).1, hst2]
        show (st1.calls ++ ["audio/wav"]).length = j + 1
        rw [List.length_append, hst1, (sendEvent_fields alive _ _).2.2.1]
        show st.calls.length + 1 = j + 1
        omega
      have h3l : st3.waitLogs = st.waitLogs := by
        rw [hst3, (afterOutcome_fields alive c (j + 1) (o j) st2).2.1, hst2]
        show st1.waitLogs = st.waitLogs
        rw [hst1, (sendEvent_fields alive _ _).2.2.2.1]
      have h3e : ∀ (k tot : Nat) (a b : ℚ),
          SEvent.chunkStart k tot a b ∈ st3.events → k ≤ j + 1 := by
        intro k tot a b hk
        have hk2 := afterOutcome_chunkStart alive c (j + 1) (o j) st2 k tot a b
          (hst3 ▸ hk)
        have hk3 : SEvent.chunkStart k tot a b ∈ st1.events := by
          rw [hst2] at hk2
          exact hk2
        rcases sendEvent_events_sub alive _ _ _ (hst1 ▸ hk3) with hk4 | hk4
        · exact Nat.le_succ_of_le (hev k tot a b hk4)
        · simp only [SEvent.chunkStart.injEq] at hk4
          omega
      by_cases h2 : j < n - 1
      · rw [if_pos h2] at hget ⊢
        by_cases h3 : alive st3.t = false
        · rw [if_pos h3] at hget ⊢
          refine absurd hget (fun hh => logs_all_true_no_false _ ?_ i s hh)
          show ∀ p ∈ st3.waitLogs, p.2 = true
          rw [h3l]
          exact hall
        · rw [if_neg h3] at hget ⊢
          set st4 := sendEvent alive (SEvent.waiting 15) { st3 with t := st3.t + 1 } with hst4
          set w := waitLoop alive st4.t 0 with hw
          set st5 : OState :=
            { st4 with t := w.2.1, waitLogs := st4.waitLogs ++ [(w.1, w.2.2)] } with hst5
          have h4l : st4.waitLogs = st.waitLogs := by
            rw [hst4, (sendEvent_fields alive _ _).2.2.2.1]
            show st3.waitLogs = st.waitLogs
            exact h3l
          have h4c : st4.calls.length = j + 1 := by
            rw [hst4, (sendEvent_fields alive _ _).2.2.1]
            exact h3c
          have h4e : ∀ (k tot : Nat) (a b : ℚ),
              SEvent.chunkStart k tot a b ∈ st4.events → k ≤ j + 1 := by
            intro k tot a b hk
            rcases sendEvent_events_sub alive _ _ _ (hst4 ▸ hk) with hk2 | hk2
            · exact h3e k tot a b hk2
            · exact absurd hk2 (by simp)
          by_cases h4 : alive st5.t = false
          · rw [if_pos h4] at hget ⊢
            have hlogs5 : st5.waitLogs = st.waitLogs ++ [(w.1, w.2.2)] := by
              rw [hst5]
              show st4.waitLogs ++ [(w.1, w.2.2)] = _
              rw [h4l]
            rcases hb : w.2.2 with _ | _
            · rw [hb] at hlogs5
              have hii := logs_concat_false st.waitLogs w.1 hall i s (by
                rw [show ({ st5 with t := st5.t + 1, stopped := true } : OState).waitLogs
                  = st5.waitLogs from rfl, hlogs5] at hget
                exact hget)
              obtain ⟨hieq, hseq⟩ := hii
              have hwl : waitLoop alive st4.t 0 = (w.1, w.2.1, false) := by
                rw [← hb]
              obtain ⟨hs15, _⟩ := waitLoop_false alive st4.t 0 w.1 w.2.1 hwl
              refine ⟨by omega, ?_, ?_, rfl⟩
              · show st5.calls.length = i + 1
                rw [hst5]
                show st4.calls.length = i + 1
                rw [h4c, hieq, hl]
              · intro k tot a b hk
                have hk2 : SEvent.chunkStart k tot a b ∈ st5.events := hk
                have hk3 : SEvent.chunkStart k tot a b ∈ st4.events := by
                  rw [hst5] at hk2
                  exact hk2
                have := h4e k tot a b hk3
                omega
            · rw [hb] at hlogs5
              refine absurd hget (fun hh => logs_all_true_no_false _ ?_ i s hh)
              show ∀ p ∈ ({ st5 with t := st5.t + 1, stopped := true } : OState).waitLogs,
                p.2 = true
              rw [show ({ st5 with t := st5.t + 1, stopped := true } : OState).waitLogs
                = st5.waitLogs from rfl, hlogs5]
              intro p hp
              rcases List.mem_append.1 hp with hp2 | hp2
              · exact hall p hp2
              · simp only [List.mem_singleton] at hp2
                subst hp2
                rfl
          · rw [if_neg h4] at hget ⊢
            have hb : w.2.2 = true := by
              rcases hbb : w.2.2 with _ | _
              · exfalso
                have hwl : waitLoop alive st4.t 0 = (w.1, w.2.1, false) := by
                  rw [← hbb]
                obtain ⟨_, td, htd, hdeadtd⟩ := waitLoop_false alive st4.t 0 w.1 w.2.1 hwl
                have : alive st5.t = false := by
                  rw [hst5]
                  show alive w.2.1 = false
                  exact hdead td w.2.1 (by omega) hdeadtd
                exact h4 this
              · rfl
            refine ih (j + 1) { st5 with t := st5.t + 1 } ?_ ?_ ?_ ?_ (by
              simp only [List.length_cons] at halign
              omega) i s hget
            · show st5.calls.length = j + 1
              rw [hst5]
              show st4.calls.length = j + 1
              exact h4c
            · show st5.waitLogs.length = j + 1
              rw [hst5]
              show (st4.waitLogs ++ [(w.1, w.2.2)]).length = j + 1
              rw [List.length_append, h4l]
              simp [hl]
            · show ∀ p ∈ st5.waitLogs, p.2 = true
              rw [hst5]
              show ∀ p ∈ st4.waitLogs ++ [(w.1, w.2.2)], p.2 = true
              rw [h4l]
              intro p hp
              rcases List.mem_append.1 hp with hp2 | hp2
              · exact hall p hp2
              · simp only [List.mem_singleton] at hp2
                subst hp2
                exact hb
            · show ∀ (k tot : Nat) (a b : ℚ),
                SEvent.chunkStart k tot a b ∈ st5.events → k ≤ j + 1
              intro k tot a b hk
              refine h4e k tot a b ?_
              rw [hst5] at hk
              exact hk
      · rw [if_neg h2] at hget ⊢
        have hlnil : l = [] := by
          rcases l with _ | ⟨c2, l2⟩
          · rfl
          · exfalso
            simp only [List.length_cons] at halign
            omega
        subst hlnil
        rw [show List.enumFrom (j + 1) ([] : List ChunkSpec) = [] from rfl,
          runChunksFrom] at hget ⊢
        refine absurd hget (fun hh => logs_all_true_no_false _ ?_ i s hh)
        show ∀ p ∈ st3.waitLogs, p.2 = true
        rw [h3l]
        exact hall

/-- C1: if the consumer disconnects (permanently, as a closed stream is)
and the orchestrator observes this during an inter-chunk wait — the
`i`-th wait log ends dead — then the wait stopped after fewer than 15 of
its one-second sleeps rather than completing the full 15-second delay,
exactly `i + 1` provider calls were made (none for any later chunk), no
`chunk-start` event for any chunk beyond `i + 1` was ever emitted, and
the loop stopped. -/
theorem c1_disconnect_during_wait_stops (alive : Nat → Bool) (chunks : List ChunkSpec)
    (o : Nat → Except String String) (dur : Nat)
    (hdead : ∀ m k : Nat, m ≤ k → alive m = false → alive k = false) (i s : Nat)
    (hlog : (runSplit alive chunks o dur).waitLogs.get? i = some (s, false)) :
    s < 15 ∧
    (runSplit alive chunks o dur).calls.length = i + 1 ∧
    (∀ (k tot : Nat) (a b : ℚ),
      SEvent.chunkStart k tot a b ∈ (runSplit alive chunks o dur).events → k ≤ i + 1) ∧
    (runSplit alive chunks o dur).stopped = true := by
  rw [runSplit] at hlog ⊢
  set st0 : OState := ⟨0, [], [], [], [], [], false, ""⟩ with hst0
  set st1 := sendEvent alive (SEvent.info "long audio detected") st0 with hst1
  set st2 := sendEvent alive (SEvent.info "chunking audio") st1 with hst2
  set st3 := sendEvent alive (SEvent.chunksCreated chunks.length dur) st2 with hst3
  set st4 := runChunksFrom alive o chunks.length chunks.enum st3 with hst4
  have h3c : st3.calls = [] := by
    rw [hst3, (sendEvent_fields alive _ _).2.2.1, hst2, (sendEvent_fields alive _ _).2.2.1,
      hst1, (sendEvent_fields alive _ _).2.2.1]
  have h3l : st3.waitLogs = [] := by
    rw [hst3, (sendEvent_fields alive _ _).2.2.2.1, hst2,
      (sendEvent_fields alive _ _).2.2.2.1, hst1, (sendEvent_fields alive _ _).2.2.2.1]
  have h3e : ∀ (k tot : Nat) (a b : ℚ),
      SEvent.chunkStart k tot a b ∈ st3.events → k ≤ 0 := by
    intro k tot a b hk
    rcases sendEvent_events_sub alive _ _ _ (hst3 ▸ hk) with hk2 | hk2
    · rcases sendEvent_events_sub alive _ _ _ (hst2 ▸ hk2) with hk3 | hk3
      · rcases sendEvent_events_sub alive _ _ _ (hst1 ▸ hk3) with hk4 | hk4
        · exact absurd hk4 (by simp [hst0])
        · exact absurd hk4 (by simp)
      · exact absurd hk3 (by simp)
    · exact absurd hk2 (by simp)
  have hmain := runChunksFrom_cancel alive o chunks.length hdead chunks 0 st3
    (by rw [h3c]; rfl) (by rw [h3l]; rfl)
    (by rw [h3l]; intro p hp; simp at hp) h3e (by omega)
  set st5 : OState := { st4 with docText := String.intercalate "\n\n" st4.transcripts }
    with hst5
  have htail : ∀ (res : OState),
      (res = { st5 with t := st5.t + 1 } ∨
        res = sendEvent alive (SEvent.complete st5.docText) { st5 with t := st5.t + 1 }) →
      res.waitLogs = st4.waitLogs ∧ res.calls = st4.calls ∧ res.stopped = st4.stopped ∧
      (∀ (k tot : Nat) (a b : ℚ),
        SEvent.chunkStart k tot a b ∈ res.events → SEvent.chunkStart k tot a b ∈ st4.events) := by
    intro res hres
    rcases hres with hres | hres
    · subst hres
      exact ⟨by rw [hst5], by rw [hst5], by rw [hst5], fun k tot a b hk => by
        rw [hst5] at hk
        exact hk⟩
    · subst hres
      refine ⟨?_, ?_, ?_, ?_⟩
      · rw [(sendEvent_fields alive _ _).2.2.2.1, hst5]
      · rw [(sendEvent_fields alive _ _).2.2.1, hst5]
      · rw [(sendEvent_fields alive _ _).2.2.2.2.1, hst5]
      · intro k tot a b hk
        rcases sendEvent_events_sub alive _ _ _ hk with hk2 | hk2
        · rw [hst5] at hk2
          exact hk2
        · exact absurd hk2 (by simp)
  by_cases hfin : alive st5.t = false
  · rw [if_pos hfin] at hlog ⊢
    obtain ⟨hwl, hca, hstp, hevs⟩ := htail _ (Or.inl rfl)
    have hlog4 : st4.waitLogs.get? i = some (s, false) := by
      rw [← hwl]
      exact hlog
    obtain ⟨ha, hb, hcc, hd⟩ := hmain i s hlog4
    refine ⟨ha, ?_, ?_, ?_⟩
    · rw [hca]
      exact hb
    · intro k tot a b hk
      exact hcc k tot a b (hevs k tot a b hk)
    · rw [hstp]
      exact hd
  · rw [if_neg hfin] at hlog ⊢
    obtain ⟨hwl, hca, hstp, hevs⟩ := htail _ (Or.inr rfl)
    have hlog4 : st4.waitLogs.get? i = some (s, false) := by
      rw [← hwl]
      exact hlog
    obtain ⟨ha, hb, hcc, hd⟩ := hmain i s hlog4
    refine ⟨ha, ?_, ?_, ?_⟩
    · rw [hca]
      exact hb
    · intro k tot a b hk
      exact hcc k tot a b (hevs k tot a b hk)
    · rw [hstp]
      exact hd

/-- C1 witness: two chunks with a stream that dies at the 8th liveness
read — during the first inter-chunk wait. The wait log records a dead
wait after 0 sleeps; one provider call was made and the run stopped. -/
theorem c1_disconnect_during_wait_stops_witness :
    (runSplit (fun t => decide (t < 7)) [⟨0, 1⟩, ⟨1, 2⟩]
      (fun _ => Except.ok "") 60).waitLogs.get? 0 = some (0, false) ∧
    0 < 15 ∧
    (runSplit (fun t => decide (t < 7)) [⟨0, 1⟩, ⟨1, 2⟩]
      (fun _ => Except.ok "") 60).calls.length = 0 + 1 ∧
    (runSplit (fun t => decide (t < 7)) [⟨0, 1⟩, ⟨1, 2⟩]
      (fun _ => Except.ok "") 60).stopped = true :=
  ⟨rfl,
   (c1_disconnect_during_wait_stops (fun t => decide (t < 7)) [⟨0, 1⟩, ⟨1, 2⟩]
     (fun _ => Except.ok "") 60
     (by intro m k hmk hm; simp only [decide_eq_false_iff_not, not_lt] at hm ⊢; omega)
     0 0 rfl).1,
   (c1_disconnect_during_wait_stops (fun t => decide (t < 7)) [⟨0, 1⟩, ⟨1, 2⟩]
     (fun _ => Except.ok "") 60
     (by intro m k hmk hm; simp only [decide_eq_false_iff_not, not_lt] at hm ⊢; omega)
     0 0 rfl).2.1,
   (c1_disconnect_during_wait_stops (fun t => decide (t < 7)) [⟨0, 1⟩, ⟨1, 2⟩]
     (fun _ => Except.ok "") 60
     (by intro m k hmk hm; simp only [decide_eq_false_iff_not, not_lt] at hm ⊢; omega)
     0 0 rfl).2.2.2⟩
